import Mathlib

set_option maxRecDepth 10000

/-!
Shallow embedding of the `hakai_ctd_issues` error classification and
reporting pipeline (`hakai_ctd_issues/__main__.py`) together with proofs
about its behaviour.

Python strings are modelled as Lean `String` (a list of unicode code
points, matching Python code-point semantics for `len`, slicing and
lexicographic comparison).  Python exceptions that escape a function are
modelled with `Except Unit`.  The JSON decoding done by `json.loads` is
modelled by an executable recursive-descent parser over the JSON grammar,
returning `none` where `json.loads` raises.
-/

namespace HakaiCtd

/-- Left brace character, written via its code point. -/
def lbrace : Char := Char.ofNat 123

/-- Right brace character, written via its code point. -/
def rbrace : Char := Char.ofNat 125

/-- Single-quote character, written via its code point. -/
def squote : Char := Char.ofNat 39

/-- Python `str.replace('\n', ' ')`: replace every newline by a space
(code-point-wise map, since the pattern is a single character). -/
def replaceNl (s : String) : String :=
  String.mk (s.data.map fun c => if c = '\n' then ' ' else c)

/-- Python slicing `s[:n]` on a string: first `n` code points. -/
def strTake (s : String) (n : Nat) : String :=
  String.mk (s.data.take n)

/-- Python f-string `f'"{s}"'` for a string value: wrap in double quotes. -/
def quoteStr (s : String) : String :=
  "\"" ++ s ++ "\""

/-- Python `s.startswith(p)`. -/
def strStartsWith (s p : String) : Bool :=
  p.data.isPrefixOf s.data

/-- Lexicographic (code-point) strict comparison of char lists, the order
Python uses to compare strings. -/
def charListLt : List Char → List Char → Bool
  | [], [] => false
  | [], _ :: _ => true
  | _ :: _, [] => false
  | a :: as, b :: bs => if a < b then true else if b < a then false else charListLt as bs

/-- Python string `<` (lexicographic by code point). -/
def strLt (a b : String) : Bool :=
  charListLt a.data b.data

/-! ## JSON values and `json.loads` -/

/-- A decoded JSON value, as produced by Python `json.loads`.  Integers are
kept exactly; numbers with a fraction or exponent part keep their source
text (`jnumF`), an approximation of Python float formatting that no proof
below depends on. -/
inductive JValue where
  | jnull
  | jbool (b : Bool)
  | jnum (n : Int)
  | jnumF (raw : String)
  | jstr (s : String)
  | jarr (elems : List JValue)
  | jobj (pairs : List (String × JValue))

/-- JSON whitespace characters. -/
def isJsonWs (c : Char) : Bool :=
  c = ' ' || c = '\t' || c = '\n' || c = '\r'

/-- Drop leading JSON whitespace. -/
def skipWs : List Char → List Char
  | [] => []
  | c :: cs => if isJsonWs c then skipWs cs else c :: cs

/-- Value of a hex digit. -/
def hexVal (c : Char) : Option Nat :=
  if '0' ≤ c ∧ c ≤ '9' then some (c.toNat - '0'.toNat)
  else if 'a' ≤ c ∧ c ≤ 'f' then some (c.toNat - 'a'.toNat + 10)
  else if 'A' ≤ c ∧ c ≤ 'F' then some (c.toNat - 'A'.toNat + 10)
  else none

/-- Value of a decimal digit. -/
def digitVal (c : Char) : Option Nat :=
  if '0' ≤ c ∧ c ≤ '9' then some (c.toNat - '0'.toNat) else none

/-- Simple JSON string escapes. -/
def escChar (c : Char) : Option Char :=
  if c = '"' ∨ c = '\\' ∨ c = '/' then some c
  else if c = 'b' then some (Char.ofNat 8)
  else if c = 'f' then some (Char.ofNat 12)
  else if c = 'n' then some '\n'
  else if c = 'r' then some '\r'
  else if c = 't' then some '\t'
  else none

/-- Parse the body of a JSON string after the opening quote; returns the
decoded characters and the input remaining after the closing quote.
Raw control characters are rejected, as by `json.loads` in strict mode. -/
def parseJStr : List Char → Option (List Char × List Char)
  | [] => none
  | c :: cs =>
    if c = '"' then some ([], cs)
    else if c = '\\' then
      match cs with
      | [] => none
      | e :: cs2 =>
        if e = 'u' then
          match cs2 with
          | h1 :: h2 :: h3 :: h4 :: cs3 =>
            match hexVal h1, hexVal h2, hexVal h3, hexVal h4 with
            | some v1, some v2, some v3, some v4 =>
              match parseJStr cs3 with
              | some (s, rest) =>
                some (Char.ofNat (((v1 * 16 + v2) * 16 + v3) * 16 + v4) :: s, rest)
              | none => none
            | _, _, _, _ => none
          | _ => none
        else
          match escChar e with
          | some ec =>
            match parseJStr cs2 with
            | some (s, rest) => some (ec :: s, rest)
            | none => none
          | none => none
    else if c.toNat < 32 then none
    else
      match parseJStr cs with
      | some (s, rest) => some (c :: s, rest)
      | none => none

/-- Parse one or more decimal digits; returns them and the rest. -/
def parseDigits : List Char → Option (List Char × List Char)
  | [] => none
  | c :: cs =>
    match digitVal c with
    | none => none
    | some _ =>
      match cs with
      | [] => some ([c], [])
      | d :: _ =>
        match digitVal d with
        | none => some ([c], cs)
        | some _ =>
          match parseDigits cs with
          | some (ds, rest) => some (c :: ds, rest)
          | none => none

/-- Decimal value of a digit string. -/
def digitsToNat (ds : List Char) : Nat :=
  ds.foldl (fun acc c => acc * 10 + (c.toNat - '0'.toNat)) 0

/-- Parse a JSON number after an optional leading minus sign has been
recorded in `neg`; enforces the no-leading-zero rule of the JSON grammar.
Returns the value and the remaining input. -/
def parseNumberBody (neg : Bool) (cs : List Char) : Option (JValue × List Char) :=
  match parseDigits cs with
  | none => none
  | some (ds, rest) =>
    if ds.length > 1 ∧ ds.headD '0' = '0' then none
    else
      let mkInt : JValue :=
        .jnum (if neg then -(Int.ofNat (digitsToNat ds)) else Int.ofNat (digitsToNat ds))
      match rest with
      | [] => some (mkInt, [])
      | c :: cs2 =>
        if c = '.' then
          match parseDigits cs2 with
          | none => none
          | some (fs, rest2) =>
            match rest2 with
            | e :: cs3 =>
              if e = 'e' ∨ e = 'E' then
                match parseExpTail cs3 with
                | some (es, rest3) =>
                  some (.jnumF (String.mk ((if neg then ['-'] else []) ++ ds ++ '.' :: fs ++ e :: es)), rest3)
                | none => none
              else some (.jnumF (String.mk ((if neg then ['-'] else []) ++ ds ++ '.' :: fs)), rest2)
            | [] => some (.jnumF (String.mk ((if neg then ['-'] else []) ++ ds ++ '.' :: fs)), [])
        else if c = 'e' ∨ c = 'E' then
          match parseExpTail cs2 with
          | some (es, rest3) =>
            some (.jnumF (String.mk ((if neg then ['-'] else []) ++ ds ++ c :: es)), rest3)
          | none => none
        else some (mkInt, rest)
where
  /-- Parse the exponent digits after `e`/`E`, with optional sign. -/
  parseExpTail (cs : List Char) : Option (List Char × List Char) :=
    match cs with
    | c :: cs2 =>
      if c = '+' ∨ c = '-' then
        match parseDigits cs2 with
        | some (es, rest) => some (c :: es, rest)
        | none => none
      else
        match parseDigits cs with
        | some (es, rest) => some (es, rest)
        | none => none
    | [] => none

/-- Check that the input starts with the given literal characters. -/
def stripLit : List Char → List Char → Option (List Char)
  | [], cs => some cs
  | _ :: _, [] => none
  | l :: ls, c :: cs => if c = l then stripLit ls cs else none

mutual

/-- Fuel-indexed recursive-descent parser for one JSON value.  The fuel is
an upper bound on nesting depth plus list length; `jsonLoads` supplies
enough for any input. -/
def parseJValue : Nat → List Char → Option (JValue × List Char)
  | 0, _ => none
  | fuel + 1, cs0 =>
    match skipWs cs0 with
    | [] => none
    | c :: rest =>
      if c = '"' then
        match parseJStr rest with
        | some (s, r) => some (.jstr (String.mk s), r)
        | none => none
      else if c = lbrace then parseJObjItems fuel (skipWs rest)
      else if c = '[' then parseJArrItems fuel (skipWs rest)
      else if c = 't' then
        match stripLit ['r', 'u', 'e'] rest with
        | some r => some (.jbool true, r)
        | none => none
      else if c = 'f' then
        match stripLit ['a', 'l', 's', 'e'] rest with
        | some r => some (.jbool false, r)
        | none => none
      else if c = 'n' then
        match stripLit ['u', 'l', 'l'] rest with
        | some r => some (.jnull, r)
        | none => none
      else if c = '-' then parseNumberBody true rest
      else
        match digitVal c with
        | some _ => parseNumberBody false (c :: rest)
        | none => none

/-- Parse array items after `[` and leading whitespace, including the
closing bracket. -/
def parseJArrItems : Nat → List Char → Option (JValue × List Char)
  | 0, _ => none
  | fuel + 1, cs =>
    match cs with
    | ']' :: rest => some (.jarr [], rest)
    | _ =>
      match parseJValue fuel cs with
      | none => none
      | some (v, rest) => parseJArrTail fuel v [] (skipWs rest)

/-- Parse the `, item`* tail of an array.  `acc` holds the previously
parsed items in reverse order. -/
def parseJArrTail : Nat → JValue → List JValue → List Char → Option (JValue × List Char)
  | 0, _, _, _ => none
  | fuel + 1, v, acc, cs =>
    match cs with
    | ']' :: rest => some (.jarr ((v :: acc).reverse), rest)
    | ',' :: rest =>
      match parseJValue fuel rest with
      | none => none
      | some (v2, rest2) => parseJArrTail fuel v2 (v :: acc) (skipWs rest2)
    | _ => none

/-- Parse object members after the opening brace and leading whitespace,
including the closing brace. -/
def parseJObjItems : Nat → List Char → Option (JValue × List Char)
  | 0, _ => none
  | fuel + 1, cs =>
    match cs with
    | c :: rest =>
      if c = rbrace then some (.jobj [], rest)
      else if c = '"' then
        match parseJStr rest with
        | none => none
        | some (k, rest2) =>
          match skipWs rest2 with
          | ':' :: rest3 =>
            match parseJValue fuel (skipWs rest3) with
            | none => none
            | some (v, rest4) => parseJObjTail fuel (String.mk k, v) [] (skipWs rest4)
          | _ => none
      else none
    | [] => none

/-- Parse the `, "key": value`* tail of an object.  `acc` holds the
previously parsed members in reverse order. -/
def parseJObjTail : Nat → (String × JValue) → List (String × JValue) → List Char →
    Option (JValue × List Char)
  | 0, _, _, _ => none
  | fuel + 1, kv, acc, cs =>
    match cs with
    | c :: rest =>
      if c = rbrace then some (.jobj ((kv :: acc).reverse), rest)
      else if c = ',' then
        match skipWs rest with
        | '"' :: rest2 =>
          match parseJStr rest2 with
          | none => none
          | some (k, rest3) =>
            match skipWs rest3 with
            | ':' :: rest4 =>
              match parseJValue fuel (skipWs rest4) with
              | none => none
              | some (v, rest5) => parseJObjTail fuel (String.mk k, v) (kv :: acc) (skipWs rest5)
            | _ => none
        | _ => none
      else none
    | [] => none

end

/-- Model of Python `json.loads`: parse the whole string as one JSON value,
allowing trailing whitespace only; `none` models a raised
`json.JSONDecodeError`. -/
def jsonLoads (s : String) : Option JValue :=
  match parseJValue (s.length + 2) s.data with
  | some (v, rest) => if skipWs rest = [] then some v else none
  | none => none

/-- Python dict lookup on the decoded pairs: with duplicate keys the last
occurrence wins, as when `json.loads` builds the dict. -/
def dictGetLast (pairs : List (String × JValue)) (k : String) : Option JValue :=
  match pairs with
  | [] => none
  | (k2, v) :: rest =>
    match dictGetLast rest k with
    | some r => some r
    | none => if k2 = k then some v else none

/-- Model of the expression `json.loads(error)["message"]`: `some v` when
`error` decodes to a JSON object with a `"message"` member (so the Python
assignment rebinds `error` to `v`); `none` when `json.loads` raises or the
subscript raises `KeyError`/`TypeError` (so `error` keeps its original
string value in the handler). -/
def jsonMessage (error : String) : Option JValue :=
  match jsonLoads error with
  | some (.jobj ps) => dictGetLast ps "message"
  | _ => none

/-! ## Python `str()` of decoded JSON values

Needed because the fallback branch of `_get_error_message` formats whatever
value `error` was rebound to with `f'"{error}"'`.  The string case follows
CPython `repr` with single quotes (the double-quote heuristic for strings
containing a single quote is not reproduced); no theorem below depends on
this rendering. -/

/-- Escape one character as inside CPython `repr` of a str. -/
def pyReprChar (c : Char) : List Char :=
  if c = '\\' then ['\\', '\\']
  else if c = squote then ['\\', squote]
  else if c = '\n' then ['\\', 'n']
  else if c = '\r' then ['\\', 'r']
  else if c = '\t' then ['\\', 't']
  else [c]

/-- CPython-style `repr` of a str: single-quoted, escaped. -/
def pyReprStr (s : String) : String :=
  String.mk (squote :: (s.data.map pyReprChar).flatten ++ [squote])

/-- Concatenate with `", "` separators, as Python container repr does. -/
def joinCommaSep : List String → String
  | [] => ""
  | [s] => s
  | s :: rest => s ++ ", " ++ joinCommaSep rest

mutual

/-- Python `str()` of a value decoded from JSON (for containers this is
`repr`). -/
def pyStrJ : JValue → String
  | .jnull => "None"
  | .jbool true => "True"
  | .jbool false => "False"
  | .jnum n => toString n
  | .jnumF raw => raw
  | .jstr s => pyReprStr s
  | .jarr l => "[" ++ joinCommaSep (pyStrList l) ++ "]"
  | .jobj ps => String.mk [lbrace] ++ joinCommaSep (pyStrPairs ps) ++ String.mk [rbrace]

/-- `repr` of each element of a list. -/
def pyStrList : List JValue → List String
  | [] => []
  | v :: vs => pyStrJ v :: pyStrList vs

/-- `repr` of each `key: value` member of a dict. -/
def pyStrPairs : List (String × JValue) → List String
  | [] => []
  | (k, v) :: ps => (pyReprStr k ++ ": " ++ pyStrJ v) :: pyStrPairs ps

end

/-! ## The message normalizer `_get_error_message` -/

/-- The fixed prefix of the reference-station special case. -/
def latLongMarker : String := "No lat/long information available for station "

/-- Python `len()` on the value the handler may hold: strings, lists and
dicts have a length (dict length counts distinct keys); `int`, `float`,
`bool` and `None` raise `TypeError`. -/
def pyLen : JValue → Option Nat
  | .jstr s => some s.length
  | .jarr l => some l.length
  | .jobj ps => some ((ps.map Prod.fst).dedup).length
  | _ => none

/-- The `except:` handler of `_get_error_message` when the Python name
`error` was rebound to a non-string JSON `"message"` value `v` before
`.startswith` raised `AttributeError`: `len(v)` itself raises `TypeError`
for values without a length (and slicing a dict raises), which escapes the
handler; otherwise the (possibly sliced) value is formatted. -/
def handlerOnValue : JValue → Except Unit String
  | .jarr l =>
    if l.length > 300 then .ok (quoteStr (pyStrJ (.jarr (l.take 300))))
    else .ok (quoteStr (pyStrJ (.jarr l)))
  | .jobj ps =>
    if ((ps.map Prod.fst).dedup).length > 300 then .error ()
    else .ok (quoteStr (pyStrJ (.jobj ps)))
  | .jstr s => .ok (quoteStr (if s.length > 300 then strTake s 300 else s))
  | _ => .error ()

/-- Embedding of `_get_error_message` (`__main__.py` lines 60-70).  The
`try` branch fires when `json.loads(error)["message"]` yields a value: a
string message gets the reference-station replacement or quoting plus
newline collapse; a non-string message makes `.startswith` raise
`AttributeError`, handled with `error` rebound to that value.  When the
subscripting itself raises, the handler still sees the original string:
truncate it to 300 characters, then quote.  `.error ()` is an exception
escaping the function. -/
def getErrorMessage (error : String) : Except Unit String :=
  match jsonMessage error with
  | some (.jstr m) =>
    if strStartsWith m latLongMarker then .ok "Unknown reference station"
    else .ok (replaceNl (quoteStr m))
  | some v => handlerOnValue v
  | none => .ok (quoteStr (if error.length > 300 then strTake error 300 else error))

/-- The `process_error_message` column (`__main__.py` line 78):
`_get_error_message` applied to `process_error`, then the column-level
`.str.replace('\n', ' ')`. -/
def processErrorMessage (error : String) : Except Unit String :=
  (getErrorMessage error).map replaceNl

/-! ## Records and the `get_errors` stage -/

/-- One raw input row of the `ctd/views/file/cast` response, restricted to
`CTD_CASTS_FIELDS`. -/
structure ErrorRecord where
  organization : String
  work_area : String
  cruise : String
  station : String
  device_model : String
  cast_type : String
  hakai_id : String
  process_error : String
deriving DecidableEq

/-- An `ErrorRecord` with the derived `process_error_message` column. -/
structure NormalizedRecord where
  organization : String
  work_area : String
  cruise : String
  station : String
  device_model : String
  cast_type : String
  hakai_id : String
  process_error : String
  process_error_message : String
deriving DecidableEq

/-- Embedding of `get_errors` applied to an already-fetched batch (the
network fetch is the out-of-scope ingestion collaborator): add the
`process_error_message` column; the first record on which
`_get_error_message` raises aborts the whole `apply`, hence the run. -/
def getErrors (records : List ErrorRecord) : Except Unit (List NormalizedRecord) :=
  records.mapM fun r =>
    (processErrorMessage r.process_error).map fun m =>
      { organization := r.organization
        work_area := r.work_area
        cruise := r.cruise
        station := r.station
        device_model := r.device_model
        cast_type := r.cast_type
        hakai_id := r.hakai_id
        process_error := r.process_error
        process_error_message := m }

/-! ## Aggregation: `get_summarized_errors` -/

/-- The `work_area` rewrite (`__main__.py` lines 92-97): for the
`"NATURE TRUST"` organization the cruise is appended, all other
organizations are untouched. -/
def rewriteWorkArea (r : NormalizedRecord) : NormalizedRecord :=
  if r.organization = "NATURE TRUST" then
    { r with work_area := r.work_area ++ "[cruise=" ++ r.cruise ++ "]" }
  else r

/-- The grouping key `(organization, work_area, cast_type,
process_error_message)`. -/
abbrev GroupKey := String × String × String × String

/-- Grouping key of a record. -/
def rowKey (r : NormalizedRecord) : GroupKey :=
  (r.organization, r.work_area, r.cast_type, r.process_error_message)

/-- Non-strict code-point comparison of strings (final component of a
tuple comparison). -/
def innerLe (x y : String) : Bool :=
  strLt x y || x == y

/-- One step of a Python tuple comparison: strictly smaller first
component, or equal first components and `rest` for the remaining ones. -/
def lexStep (x y : String) (rest : Bool) : Bool :=
  strLt x y || (x == y && rest)

/-- Ascending lexicographic comparison of grouping keys (Python tuple
comparison of code-point-compared strings), the order `groupby` sorts its
group keys in. -/
def keyLe (a b : GroupKey) : Bool :=
  lexStep a.1 b.1 (lexStep a.2.1 b.2.1 (lexStep a.2.2.1 b.2.2.1 (innerLe a.2.2.2 b.2.2.2)))

/-- Stable insertion of `x` into `l`: `x` goes in front of the first
element it may precede, after any element tied with it. -/
def sortInsert (le : α → α → Bool) (x : α) : List α → List α
  | [] => [x]
  | y :: ys => if le x y then x :: y :: ys else y :: sortInsert le x ys

/-- Stable insertion sort with respect to the total preorder `le`
(`le a b` reads: `a` may come before `b`).  Both `groupby(sort=True)` key
sorting and the multi-column `sort_values` (numpy lexsort) are stable. -/
def sortStable (le : α → α → Bool) : List α → List α
  | [] => []
  | x :: xs => sortInsert le x (sortStable le xs)

/-- Embedding of the `groupby` of lines 98-106: the distinct grouping keys,
sorted ascending (`sort=True` is the `groupby` default), each with its full
member list in original row order. -/
def groupsOf (rs : List NormalizedRecord) : List (GroupKey × List NormalizedRecord) :=
  (sortStable keyLe ((rs.map rowKey).dedup)).map fun k =>
    (k, rs.filter fun r => decide (rowKey r = k))

/-- The `_get_subset` helper of `get_summarized_errors` (lines 83-90):
keep the first `maxItems` entries and append a `"..."` sentinel when the
list is strictly longer (the call site uses the default `maxItems = 4`). -/
def getSubset (items : List String) (maxItems : Nat) : List String :=
  if items.length > maxItems then items.take maxItems ++ ["..."] else items

/-- One row of the summarized frame after the column renaming of line 107.
`stations` is a Python `set`; it is modelled as a deduplicated list, no
claim depends on its order. -/
structure SummaryRow where
  organization : String
  work_area : String
  cast_type : String
  process_error_message : String
  hakai_ids : List String
  count : Nat
  process_error : String
  stations : List String
deriving DecidableEq

/-- The per-group aggregation of lines 100-106: `hakai_id` to the
`_get_subset` display sample and the member count (`count` counts the
non-null values, and every modelled field is a string), `process_error` to
its first value, `station` to the set of stations. -/
def aggRow (k : GroupKey) (members : List NormalizedRecord) : SummaryRow :=
  { organization := k.1
    work_area := k.2.1
    cast_type := k.2.2.1
    process_error_message := k.2.2.2
    hakai_ids := getSubset (members.map (·.hakai_id)) 4
    count := members.length
    process_error := ((members.map (·.process_error)).headD "")
    stations := ((members.map (·.station)).dedup) }

/-- The ordering of `sort_values(["organization", "count"],
ascending=False)` (lines 108-110): `a` may precede `b` when its
organization is lexicographically greater, or organizations are equal and
its count is at least as large. -/
def descLe (a b : SummaryRow) : Bool :=
  lexStep b.organization a.organization (decide (b.count ≤ a.count))

/-- The summarized, sorted class sequence produced by
`get_summarized_errors` from the (already rewritten) records. -/
def summarize (rs : List NormalizedRecord) : List SummaryRow :=
  sortStable descLe ((groupsOf rs).map fun g => aggRow g.1 g.2)

/-- Embedding of `get_summarized_errors` (lines 82-111).  The assignment
`errors["work_area"] = errors.apply(...)` mutates the caller's frame in
place; that effect is modelled by returning the post-call record list as
the first component next to the summarized rows. -/
def getSummarizedErrors (errors : List NormalizedRecord) :
    List NormalizedRecord × List SummaryRow :=
  let errors2 := errors.map rewriteWorkArea
  (errors2, summarize errors2)

/-! ## `main`: short labels, issue documents and written files -/

/-- The regex pattern literal of line 139.  The Python source reads
`'[\{"\]'`; the unrecognized escapes keep their backslashes, so the
pattern characters are exactly left bracket, backslash, left brace,
double quote, backslash, right bracket. -/
def shortLabelRegex : String := "[\\\x7b\"\\]"

/-- Parse the body of a regex character class after the opening bracket
(and after any leading literal right bracket): a backslash escapes the
following character; an unescaped right bracket closes the class; running
out of input means the class is unterminated (`none`). -/
def parseCharClassAux : List Char → Option (List Char × List Char)
  | [] => none
  | '\\' :: [] => none
  | '\\' :: c :: rest =>
    match parseCharClassAux rest with
    | some (cls, rem) => some (c :: cls, rem)
    | none => none
  | ']' :: rest => some ([], rest)
  | c :: rest =>
    match parseCharClassAux rest with
    | some (cls, rem) => some (c :: cls, rem)
    | none => none

/-- Model of `re.compile` for the single-character-class patterns this
program uses: the pattern must be one complete bracketed class (a right
bracket directly after the opening bracket is a literal).  `none` models
`re.error` (for this pattern shape: an unterminated character set). -/
def compileCharClassRegex (pat : String) : Option (List Char) :=
  match pat.data with
  | '[' :: rest =>
    match rest with
    | ']' :: rest2 =>
      match parseCharClassAux rest2 with
      | some (cls, []) => some (']' :: cls)
      | _ => none
    | _ =>
      match parseCharClassAux rest with
      | some (cls, []) => some cls
      | _ => none
  | _ => none

/-- Model of `re.sub(pat, "", s)` for a character-class pattern: delete
every occurrence of a class member; a pattern that does not compile raises
(`.error ()`). -/
def reSubDelete (pat : String) (s : String) : Except Unit String :=
  match compileCharClassRegex pat with
  | none => .error ()
  | some cls => .ok (String.mk (s.data.filter fun c => !(decide (c ∈ cls))))

/-- Python `x.split(".")[0]`: the text before the first dot (the whole
string when there is none). -/
def splitFirstDot (s : String) : String :=
  String.mk (s.data.takeWhile fun c => c ≠ '.')

/-- The `process_error_message_short` computation of lines 137-139: an
empty (falsy) message is passed through unchanged without touching the
regex; otherwise the message is split on the first dot and the character
class is deleted from it. -/
def shortLabel (x : String) : Except Unit String :=
  if x = "" then .ok x
  else reSubDelete shortLabelRegex (splitFirstDot x)

/-- Filesystem key of an organization (line 162):
`organization.replace(" ", "_").lower()`. -/
def orgKeyOf (org : String) : String :=
  String.mk (org.data.map fun c => if c = ' ' then '_' else c.toLower)

/-- Ascending code-point order on organization names, the order
`groupby("organization")` iterates in. -/
def orgAscLe (a b : String) : Bool := !strLt b a

/-- Embedding of `main` (lines 121-199) on an already-fetched batch,
returning the list of file paths written under the output root.  The
summary-page and chart contents are produced by the out-of-scope charting
and templating collaborators, so only the written paths are modelled.  The
loop that would write `issues/issue-{id}.md` (lines 157-158) is commented
out in the source, so no issue file path is ever produced; the
`process_error_message_short` column (line 139) is computed first and any
failure there aborts the run before anything is written. -/
def mainWrites (records : List ErrorRecord) : Except Unit (List String) := do
  let errors ← getErrors records
  let summarized := (getSummarizedErrors errors).2
  let _ ← summarized.mapM fun row => shortLabel row.process_error_message
  let orgs := sortStable orgAscLe ((summarized.map (·.organization)).dedup)
  pure (orgs.map fun org => orgKeyOf org ++ "/index.md")

/-! ## Auxiliary relations and concrete inputs used by the theorems -/

/-- The relation a stable sort establishes between an earlier and a later
output element: the earlier one may precede the later one, and if they are
tied then they already stood in relation `S` (for us: the order
established by the grouping step). -/
def stOrd (le : α → α → Bool) (S : α → α → Prop) (a b : α) : Prop :=
  le a b = true ∧ (le b a = true → S a b)

/-- The grouping-key fields of a summarized row. -/
def summaryKey (row : SummaryRow) : GroupKey :=
  (row.organization, row.work_area, row.cast_type, row.process_error_message)

/-- Helper building a normalized record for concrete test inputs. -/
def mkNRec (org wa cruise hid msg : String) : NormalizedRecord :=
  { organization := org
    work_area := wa
    cruise := cruise
    station := "S"
    device_model := "D"
    cast_type := "CT"
    hakai_id := hid
    process_error := "raw"
    process_error_message := msg }

/-- Raw input record used to exercise `main`: a plain-text error. -/
def sampleRecC1 : ErrorRecord :=
  { organization := "Hakai"
    work_area := "A"
    cruise := "C"
    station := "S"
    device_model := "D"
    cast_type := "CT"
    hakai_id := "H1"
    process_error := "boom" }

/-- A valid JSON `process_error` whose `message` field is 301 characters
long. -/
def c2LongInput : String :=
  "\x7b\"message\": \"" ++ String.mk (List.replicate 301 'a') ++ "\"\x7d"

/-- First-seen class of the sort-stability counterexample: organization
`"O"`, work area `"B"`. -/
def c3RecB : NormalizedRecord := mkNRec "O" "B" "C1" "H1" "M1"

/-- Second-seen class of the sort-stability counterexample: organization
`"O"`, work area `"A"`. -/
def c3RecA : NormalizedRecord := mkNRec "O" "A" "C1" "H2" "M2"

/-- A plain-text (non-JSON) `process_error` starting with the
reference-station marker. -/
def c6Plain : String := "No lat/long information available for station X"

/-- A JSON `process_error` carrying a reference-station message. -/
def c6Json : String :=
  "\x7b\"message\": \"No lat/long information available for station X\"\x7d"

/-- Five records sharing one grouping key, in input order `H1` to `H5`. -/
def c7Recs : List NormalizedRecord :=
  [mkNRec "O" "W" "C1" "H1" "M", mkNRec "O" "W" "C1" "H2" "M",
   mkNRec "O" "W" "C1" "H3" "M", mkNRec "O" "W" "C1" "H4" "M",
   mkNRec "O" "W" "C1" "H5" "M"]

/-- The single group `groupsOf` forms from `c7Recs`. -/
def c7Group : GroupKey × List NormalizedRecord :=
  (("O", "W", "CT", "M"), c7Recs)

/-- A one-record batch exercising the partition property. -/
def c4Recs : List NormalizedRecord := [mkNRec "O" "W" "C1" "H1" "M"]

/-- The single group `groupsOf` forms from `c4Recs`. -/
def c4Group : GroupKey × List NormalizedRecord :=
  (("O", "W", "CT", "M"), c4Recs)

/-- A `NATURE TRUST` record with the spec example fields. -/
def c9NtRec : NormalizedRecord := mkNRec "NATURE TRUST" "Zone1" "C99" "H1" "M"

/-- A `Hakai` record with the same work area and cruise. -/
def c9HkRec : NormalizedRecord := mkNRec "Hakai" "Zone1" "C99" "H1" "M"

/-- A `NATURE TRUST` record whose work area changes under aggregation. -/
def c10Rec : NormalizedRecord := mkNRec "NATURE TRUST" "Zone1" "C99" "H1" "M"

/-! ## Order lemmas for the code-point string comparison -/

theorem charListLt_irrefl : ∀ l : List Char, charListLt l l = false
  | [] => rfl
  | a :: as => by
    simp only [charListLt, lt_irrefl, if_false]
    exact charListLt_irrefl as

theorem charListLt_trans : ∀ {a b c : List Char},
    charListLt a b = true → charListLt b c = true → charListLt a c = true
  | [], [], _ :: _, h1, _ => absurd h1 (by simp [charListLt])
  | [], _ :: _, _ :: _, _, _ => rfl
  | _ :: _, _ :: _, [], _, h2 => absurd h2 (by simp [charListLt])
  | x :: xs, y :: ys, z :: zs, h1, h2 => by
    simp only [charListLt] at h1 h2 ⊢
    rcases lt_trichotomy x y with hxy | hxy | hxy
    · rcases lt_trichotomy y z with hyz | hyz | hyz
      · simp [lt_trans hxy hyz]
      · subst hyz; simp [hxy]
      · rw [if_neg (asymm hyz), if_pos hyz] at h2; simp at h2
    · subst hxy
      rcases lt_trichotomy x z with hyz | hyz | hyz
      · simp [hyz]
      · subst hyz
        rw [if_neg (lt_irrefl x), if_neg (lt_irrefl x)] at h1 h2 ⊢
        exact charListLt_trans h1 h2
      · rw [if_neg (asymm hyz), if_pos hyz] at h2; simp at h2
    · rw [if_neg (asymm hxy), if_pos hxy] at h1; simp at h1

theorem charListLt_eq_of_not : ∀ {a b : List Char},
    charListLt a b = false → charListLt b a = false → a = b
  | [], [], _, _ => rfl
  | [], _ :: _, h1, _ => absurd h1 (by simp [charListLt])
  | _ :: _, [], _, h2 => absurd h2 (by simp [charListLt])
  | x :: xs, y :: ys, h1, h2 => by
    simp only [charListLt] at h1 h2
    rcases lt_trichotomy x y with hxy | hxy | hxy
    · rw [if_pos hxy] at h1; simp at h1
    · subst hxy
      rw [if_neg (lt_irrefl x), if_neg (lt_irrefl x)] at h1 h2
      rw [charListLt_eq_of_not h1 h2]
    · rw [if_neg (asymm hxy), if_pos hxy] at h2; simp at h2

theorem strLt_trans {a b c : String} (h1 : strLt a b = true) (h2 : strLt b c = true) :
    strLt a c = true :=
  charListLt_trans h1 h2

theorem strLt_irrefl (a : String) : strLt a a = false :=
  charListLt_irrefl a.data

theorem strLt_eq_of_not {a b : String} (h1 : strLt a b = false) (h2 : strLt b a = false) :
    a = b := by
  rcases a with ⟨la⟩; rcases b with ⟨lb⟩
  exact congrArg String.mk (charListLt_eq_of_not h1 h2)

theorem strLt_asymm {a b : String} (h : strLt a b = true) : strLt b a = false := by
  cases h2 : strLt b a
  · rfl
  · have h3 := strLt_trans h h2
    rw [strLt_irrefl a] at h3
    exact absurd h3 Bool.false_ne_true

theorem strLt_trichotomy (a b : String) :
    strLt a b = true ∨ a = b ∨ strLt b a = true := by
  cases h1 : strLt a b
  · cases h2 : strLt b a
    · exact Or.inr (Or.inl (strLt_eq_of_not h1 h2))
    · exact Or.inr (Or.inr rfl)
  · exact Or.inl rfl

/-! ## Stable sort: permutation, sortedness and stability -/

theorem perm_sortInsert (le : α → α → Bool) (x : α) :
    ∀ l : List α, (sortInsert le x l).Perm (x :: l)
  | [] => List.Perm.refl _
  | y :: ys => by
    simp only [sortInsert]
    by_cases h : le x y = true
    · rw [if_pos h]
    · rw [if_neg h]
      exact ((perm_sortInsert le x ys).cons y).trans (List.Perm.swap x y ys)

theorem perm_sortStable (le : α → α → Bool) :
    ∀ l : List α, (sortStable le l).Perm l
  | [] => List.Perm.refl _
  | x :: xs =>
    (perm_sortInsert le x (sortStable le xs)).trans ((perm_sortStable le xs).cons x)

theorem mem_sortInsert {le : α → α → Bool} {x z : α} {l : List α} :
    z ∈ sortInsert le x l ↔ z = x ∨ z ∈ l := by
  rw [(perm_sortInsert le x l).mem_iff, List.mem_cons]

theorem pairwise_sortInsert {le : α → α → Bool} {S : α → α → Prop}
    (total : ∀ a b, le a b = true ∨ le b a = true)
    (trans : ∀ {a b c}, le a b = true → le b c = true → le a c = true)
    (x : α) :
    ∀ {l : List α}, l.Pairwise (stOrd le S) → (∀ z ∈ l, S x z) →
      (sortInsert le x l).Pairwise (stOrd le S)
  | [], _, _ => List.pairwise_singleton _ x
  | y :: ys, hl, hx => by
    simp only [sortInsert]
    by_cases h : le x y = true
    · rw [if_pos h]
      refine List.Pairwise.cons (fun z hz => ⟨?_, fun _ => hx z hz⟩) hl
      rcases List.mem_cons.mp hz with hz2 | hz2
      · exact hz2 ▸ h
      · exact trans h (List.rel_of_pairwise_cons hl hz2).1
    · rw [if_neg h]
      have hyx : le y x = true := (total x y).resolve_left h
      refine List.Pairwise.cons (fun z hz => ?_)
        (pairwise_sortInsert total trans x hl.tail (fun z hz => hx z (List.mem_cons_of_mem y hz)))
      rcases mem_sortInsert.mp hz with hz | hz
      · subst hz
        exact ⟨hyx, fun h2 => absurd h2 h⟩
      · exact List.rel_of_pairwise_cons hl hz

theorem pairwise_sortStable {le : α → α → Bool} {S : α → α → Prop}
    (total : ∀ a b, le a b = true ∨ le b a = true)
    (trans : ∀ {a b c}, le a b = true → le b c = true → le a c = true) :
    ∀ {l : List α}, l.Pairwise S → (sortStable le l).Pairwise (stOrd le S)
  | [], _ => List.Pairwise.nil
  | x :: xs, hl => by
    refine pairwise_sortInsert total trans x (pairwise_sortStable total trans hl.tail) ?_
    intro z hz
    exact List.rel_of_pairwise_cons hl ((perm_sortStable le xs).mem_iff.mp hz)

theorem pairwise_sortStable_le {le : α → α → Bool}
    (total : ∀ a b, le a b = true ∨ le b a = true)
    (trans : ∀ {a b c}, le a b = true → le b c = true → le a c = true)
    (l : List α) : (sortStable le l).Pairwise (fun a b => le a b = true) := by
  have h := pairwise_sortStable (S := fun _ _ => True) total trans
    (l := l) (List.pairwise_iff_forall_sublist.mpr fun _ => trivial)
  exact h.imp (fun h2 => h2.1)

/-! ## Totality and transitivity of the two sort orders -/

theorem lexStep_eq_true {x y : String} {r : Bool} :
    lexStep x y r = true ↔ strLt x y = true ∨ (x = y ∧ r = true) := by
  simp [lexStep, Bool.or_eq_true, Bool.and_eq_true, beq_iff_eq]

theorem lexStep_total {x y : String} {r s : Bool} (h : x = y → r = true ∨ s = true) :
    lexStep x y r = true ∨ lexStep y x s = true := by
  rcases strLt_trichotomy x y with h2 | h2 | h2
  · exact Or.inl (lexStep_eq_true.mpr (Or.inl h2))
  · rcases h h2 with h3 | h3
    · exact Or.inl (lexStep_eq_true.mpr (Or.inr ⟨h2, h3⟩))
    · exact Or.inr (lexStep_eq_true.mpr (Or.inr ⟨h2.symm, h3⟩))
  · exact Or.inr (lexStep_eq_true.mpr (Or.inl h2))

theorem lexStep_trans {x y z : String} {r s t : Bool}
    (h : x = y → y = z → r = true → s = true → t = true)
    (h1 : lexStep x y r = true) (h2 : lexStep y z s = true) : lexStep x z t = true := by
  rcases lexStep_eq_true.mp h1 with ha | ⟨ha, har⟩
  · rcases lexStep_eq_true.mp h2 with hb | ⟨hb, hbs⟩
    · exact lexStep_eq_true.mpr (Or.inl (strLt_trans ha hb))
    · exact lexStep_eq_true.mpr (Or.inl (hb ▸ ha))
  · rcases lexStep_eq_true.mp h2 with hb | ⟨hb, hbs⟩
    · exact lexStep_eq_true.mpr (Or.inl (ha ▸ hb))
    · exact lexStep_eq_true.mpr (Or.inr ⟨ha.trans hb, h ha hb har hbs⟩)

theorem innerLe_total (x y : String) : innerLe x y = true ∨ innerLe y x = true := by
  rcases strLt_trichotomy x y with h | h | h
  · exact Or.inl (by simp [innerLe, h])
  · exact Or.inl (by simp [innerLe, h])
  · exact Or.inr (by simp [innerLe, h])

theorem innerLe_trans {x y z : String} (h1 : innerLe x y = true) (h2 : innerLe y z = true) :
    innerLe x z = true := by
  simp only [innerLe, Bool.or_eq_true, beq_iff_eq] at h1 h2 ⊢
  rcases h1 with h1 | h1
  · rcases h2 with h2 | h2
    · exact Or.inl (strLt_trans h1 h2)
    · exact Or.inl (h2 ▸ h1)
  · exact h1 ▸ h2

theorem keyLe_total (a b : GroupKey) : keyLe a b = true ∨ keyLe b a = true :=
  lexStep_total fun _ => lexStep_total fun _ => lexStep_total fun _ => innerLe_total _ _

theorem keyLe_trans {a b c : GroupKey} (h1 : keyLe a b = true) (h2 : keyLe b c = true) :
    keyLe a c = true :=
  lexStep_trans
    (fun _ _ => lexStep_trans fun _ _ => lexStep_trans fun _ _ => innerLe_trans) h1 h2

theorem descLe_total (a b : SummaryRow) : descLe a b = true ∨ descLe b a = true :=
  (lexStep_total fun _ => by
    rcases Nat.le_total b.count a.count with h | h
    · exact Or.inl (decide_eq_true h)
    · exact Or.inr (decide_eq_true h)).symm.imp id id |>.symm

theorem descLe_trans {a b c : SummaryRow} (h1 : descLe a b = true) (h2 : descLe b c = true) :
    descLe a c = true :=
  lexStep_trans
    (fun _ _ hcb hba => decide_eq_true (Nat.le_trans (of_decide_eq_true hcb) (of_decide_eq_true hba)))
    h2 h1

theorem descLe_of_tie {a b : SummaryRow} (ho : a.organization = b.organization)
    (hc : a.count = b.count) : descLe a b = true :=
  lexStep_eq_true.mpr (Or.inr ⟨ho.symm, decide_eq_true (hc ▸ Nat.le_refl _)⟩)

/-! ## Properties of the grouping step -/

theorem flatten_filter_perm :
    ∀ (ks : List GroupKey) (rs : List NormalizedRecord), ks.Nodup →
      (∀ r ∈ rs, rowKey r ∈ ks) →
      ((ks.map fun k => rs.filter fun r => decide (rowKey r = k)).flatten).Perm rs
  | [], rs, _, hcov => by
    have h : rs = [] := List.eq_nil_iff_forall_not_mem.mpr fun r hr => by
      simpa using hcov r hr
    simp [h]
  | k :: ks, rs, hnd, hcov => by
    simp only [List.map_cons, List.flatten_cons]
    have hk_not : k ∉ ks := (List.nodup_cons.mp hnd).1
    have hstep : ∀ k2 ∈ ks,
        (rs.filter fun r => decide (rowKey r = k2)) =
          ((rs.filter fun r => !decide (rowKey r = k)).filter fun r => decide (rowKey r = k2)) := by
      intro k2 hk2
      rw [List.filter_filter]
      refine List.filter_congr fun r _ => ?_
      by_cases h : rowKey r = k2
      · have hne : ¬ (k2 = k) := fun h2 => hk_not (h2 ▸ hk2)
        simp [h, hne]
      · simp [h]
    have hmap : (ks.map fun k2 => rs.filter fun r => decide (rowKey r = k2)) =
        ks.map fun k2 => (rs.filter fun r => !decide (rowKey r = k)).filter
          fun r => decide (rowKey r = k2) :=
      List.map_congr_left hstep
    rw [hmap]
    have IH := flatten_filter_perm ks (rs.filter fun r => !decide (rowKey r = k))
      (List.nodup_cons.mp hnd).2 ?_
    · exact (IH.append_left _).trans (List.filter_append_perm _ rs)
    · intro r hr
      have hr2 : r ∈ rs := List.mem_of_mem_filter hr
      have hne : ¬ (rowKey r = k) := by
        have := List.of_mem_filter hr
        simpa using this
      rcases List.mem_cons.mp (hcov r hr2) with he | he
      · exact absurd he hne
      · exact he

/-- The sorted distinct key list of the grouping step. -/
theorem groupsOf_eq (rs : List NormalizedRecord) :
    groupsOf rs = (sortStable keyLe ((rs.map rowKey).dedup)).map fun k =>
      (k, rs.filter fun r => decide (rowKey r = k)) := rfl

theorem nodup_sorted_keys (rs : List NormalizedRecord) :
    (sortStable keyLe ((rs.map rowKey).dedup)).Nodup :=
  ((perm_sortStable keyLe _).nodup_iff).mpr (List.nodup_dedup _)

theorem mem_sorted_keys {rs : List NormalizedRecord} {k : GroupKey} :
    k ∈ sortStable keyLe ((rs.map rowKey).dedup) ↔ k ∈ rs.map rowKey := by
  rw [(perm_sortStable keyLe _).mem_iff, List.mem_dedup]

/-- Every member of a group carries that group's key. -/
theorem groupsOf_member_key {rs : List NormalizedRecord} {g : GroupKey × List NormalizedRecord}
    (hg : g ∈ groupsOf rs) : ∀ r ∈ g.2, rowKey r = g.1 := by
  rw [groupsOf_eq, List.mem_map] at hg
  obtain ⟨k, _, hk⟩ := hg
  subst hk
  intro r hr
  have hr2 : r ∈ rs.filter fun r => decide (rowKey r = k) := hr
  show rowKey r = k
  exact of_decide_eq_true (List.mem_filter.mp hr2).2

/-- Group member lists preserve the input record order. -/
theorem groupsOf_member_sublist {rs : List NormalizedRecord}
    {g : GroupKey × List NormalizedRecord} (hg : g ∈ groupsOf rs) : g.2.Sublist rs := by
  rw [groupsOf_eq, List.mem_map] at hg
  obtain ⟨k, _, hk⟩ := hg
  subst hk
  exact List.filter_sublist rs

/-- Distinct groups have distinct keys. -/
theorem groupsOf_keys_distinct (rs : List NormalizedRecord) :
    (groupsOf rs).Pairwise fun g1 g2 => g1.1 ≠ g2.1 := by
  rw [groupsOf_eq, List.pairwise_map]
  exact (nodup_sorted_keys rs).imp fun h => by simpa using h

/-- The group member lists together are a permutation of the input. -/
theorem groupsOf_members_perm (rs : List NormalizedRecord) :
    (((groupsOf rs).map fun g => g.2).flatten).Perm rs := by
  rw [groupsOf_eq, List.map_map]
  refine flatten_filter_perm _ rs (nodup_sorted_keys rs) fun r hr => ?_
  exact mem_sorted_keys.mpr (List.mem_map_of_mem rowKey hr)

/-- The grouping keys appear in strictly ascending order. -/
theorem groupsOf_keys_sorted (rs : List NormalizedRecord) :
    (groupsOf rs).Pairwise fun g1 g2 => keyLe g1.1 g2.1 = true ∧ g1.1 ≠ g2.1 := by
  rw [groupsOf_eq, List.pairwise_map]
  have h1 := pairwise_sortStable_le keyLe_total keyLe_trans ((rs.map rowKey).dedup)
  have h2 : (sortStable keyLe ((rs.map rowKey).dedup)).Pairwise (· ≠ ·) :=
    (nodup_sorted_keys rs)
  exact (h1.and h2).imp fun h => h

/-- The key fields of an aggregated row are the group key. -/
theorem summaryKey_aggRow (k : GroupKey) (ms : List NormalizedRecord) :
    summaryKey (aggRow k ms) = k := by
  obtain ⟨k1, k2, k3, k4⟩ := k
  rfl

/-! ## Helper lemmas about string lengths and newlines -/

theorem replaceNl_length (s : String) : (replaceNl s).length = s.length := by
  obtain ⟨l⟩ := s
  simp [replaceNl, String.length]

theorem quoteStr_data (s : String) : (quoteStr s).data = '"' :: (s.data ++ ['"']) := by
  obtain ⟨l⟩ := s
  rfl

theorem quoteStr_length (s : String) : (quoteStr s).length = s.length + 2 := by
  obtain ⟨l⟩ := s
  simp [quoteStr_data, String.length]

theorem strTake_length (s : String) (n : Nat) : (strTake s n).length = min n s.length := by
  obtain ⟨l⟩ := s
  simp [strTake, String.length]

theorem replaceNl_no_newline (s : String) : '\n' ∉ (replaceNl s).data := by
  intro h
  obtain ⟨l⟩ := s
  simp only [replaceNl] at h
  rw [List.mem_map] at h
  obtain ⟨c, _, hc⟩ := h
  by_cases h2 : c = '\n'
  · rw [if_pos h2] at hc
    exact absurd hc (by decide)
  · rw [if_neg h2] at hc
    exact h2 hc

/-! ## Claim theorems -/

/-- C1: the claim says every ErrorClass yields one written
`issues/issue-{i}.md` document.  In the code the issue-writing loop is
commented out, and the run even aborts first: on a one-record batch one
ErrorClass is summarized, yet `main` raises (at the short-label regex)
and writes nothing at all, in particular no issue file. -/
theorem c1_issue_documents_not_written :
    mainWrites [sampleRecC1] = .error () ∧
    (getErrors [sampleRecC1]).map (fun errors => (getSummarizedErrors errors).2.length) =
      .ok 1 :=
  ⟨rfl, rfl⟩

/-- C2 counterexample: a valid-JSON `process_error` whose `message` field
has 301 characters is normalized without truncation, so the displayed
message has 303 characters, more than the claimed 300+2 bound. -/
theorem c2_length_counterexample :
    c2LongInput ≠ "" ∧
    (processErrorMessage c2LongInput).map String.length = .ok 303 :=
  ⟨by decide, rfl⟩

/-- C2 amended: on the JSON-parse-failure fallback branch (the only branch
that truncates), normalization of a non-empty `process_error` yields a
value: the raw candidate truncated to 300 characters before quoting, of
length at most 302 and containing no newline. -/
theorem c2_fallback_bounded (e : String) (hne : e ≠ "") (hj : jsonMessage e = none) :
    ∃ r, processErrorMessage e = .ok r ∧
      r = replaceNl (quoteStr (if e.length > 300 then strTake e 300 else e)) ∧
      r.length ≤ 302 ∧ '\n' ∉ r.data := by
  refine ⟨replaceNl (quoteStr (if e.length > 300 then strTake e 300 else e)), ?_, rfl, ?_, ?_⟩
  · unfold processErrorMessage getErrorMessage
    rw [hj]
    rfl
  · rw [replaceNl_length, quoteStr_length]
    split
    · rw [strTake_length]
      omega
    · rename_i h
      omega
  · exact replaceNl_no_newline _

/-- C2 amended witness at the one-character plain-text error `"x"`. -/
theorem c2_fallback_bounded_witness :
    ∃ r, processErrorMessage "x" = .ok r ∧
      r = replaceNl (quoteStr (if ("x" : String).length > 300 then strTake "x" 300 else "x")) ∧
      r.length ≤ 302 ∧ '\n' ∉ r.data :=
  c2_fallback_bounded "x" (by decide) rfl

/-- C3 counterexample: two classes with the same organization and tied
counts, first seen in work-area order `B` then `A`.  The output order is
`A` then `B` — the ascending group-key order of the grouping step — not
the claimed original first-seen order. -/
theorem c3_first_seen_counterexample :
    (summarize [c3RecB, c3RecA]).map (fun row => row.work_area) = ["A", "B"] ∧
    [c3RecB.work_area, c3RecA.work_area] = ["B", "A"] ∧
    (∀ row1 ∈ summarize [c3RecB, c3RecA], ∀ row2 ∈ summarize [c3RecB, c3RecA],
      row1.organization = row2.organization ∧ row1.count = row2.count) := by
  decide

/-- C3 amended: the output classes are sorted by organization descending
then count descending, and ties between equal sort keys keep the order of
the key-sorted grouping step: strictly ascending full group key
`(organization, work_area, cast_type, display_message)`, not first-seen
order.  (Determinism on identical input holds trivially: the pipeline is
a function of the record sequence.) -/
theorem c3_sorted_amended (rs : List NormalizedRecord) :
    (summarize rs).Pairwise fun a b =>
      descLe a b = true ∧
        (a.organization = b.organization → a.count = b.count →
          keyLe (summaryKey a) (summaryKey b) = true ∧ summaryKey a ≠ summaryKey b) := by
  have hrows : ((groupsOf rs).map fun g => aggRow g.1 g.2).Pairwise
      (fun a b => keyLe (summaryKey a) (summaryKey b) = true ∧ summaryKey a ≠ summaryKey b) := by
    rw [List.pairwise_map]
    refine (groupsOf_keys_sorted rs).imp fun {g1 g2} h => ?_
    rw [summaryKey_aggRow, summaryKey_aggRow]
    exact h
  have h := pairwise_sortStable descLe_total descLe_trans hrows
  exact h.imp fun {a b} h2 => ⟨h2.1, fun ho hc => h2.2 (descLe_of_tie ho.symm hc.symm)⟩

/-- C3 amended witness on the two-class batch. -/
theorem c3_sorted_amended_witness :
    (summarize [c3RecB, c3RecA]).Pairwise fun a b =>
      descLe a b = true ∧
        (a.organization = b.organization → a.count = b.count →
          keyLe (summaryKey a) (summaryKey b) = true ∧ summaryKey a ≠ summaryKey b) :=
  c3_sorted_amended [c3RecB, c3RecA]

/-- C4: the full pre-truncation group memberships partition the
(rewritten) record batch: together they are a permutation of it, every
member carries its group's key, and group keys are pairwise distinct, so
no record lies in two groups. -/
theorem c4_partition (recs : List NormalizedRecord) :
    (((groupsOf (recs.map rewriteWorkArea)).map fun g => g.2).flatten).Perm
        (recs.map rewriteWorkArea) ∧
    (∀ g ∈ groupsOf (recs.map rewriteWorkArea), ∀ r ∈ g.2, rowKey r = g.1) ∧
    (groupsOf (recs.map rewriteWorkArea)).Pairwise fun g1 g2 => g1.1 ≠ g2.1 :=
  ⟨groupsOf_members_perm _, fun _ hg => groupsOf_member_key hg, groupsOf_keys_distinct _⟩

/-- C4 witness on a one-record batch and its single group. -/
theorem c4_partition_witness :
    (((groupsOf (c4Recs.map rewriteWorkArea)).map fun g => g.2).flatten).Perm
        (c4Recs.map rewriteWorkArea) ∧
    rowKey (mkNRec "O" "W" "C1" "H1" "M") = c4Group.1 :=
  ⟨(c4_partition c4Recs).1,
   (c4_partition c4Recs).2.1 c4Group (by decide) (mkNRec "O" "W" "C1" "H1" "M") (by decide)⟩

/-- C5: the claim says normalization never lets an error escape.  On the
valid-JSON input whose `message` field is the number `3`, the handler
itself calls `len` on that number and the resulting `TypeError`
propagates out of `_get_error_message`. -/
theorem c5_normalizer_raises :
    processErrorMessage "\x7b\"message\": 3\x7d" = .error () :=
  rfl

/-- C6 counterexample: a plain-text (non-JSON) `process_error` that starts
with the reference-station marker is quoted as-is; the replacement by
`"Unknown reference station"` happens only on the JSON path, not for the
raw-string candidate the claim also covers. -/
theorem c6_plain_text_counterexample :
    strStartsWith c6Plain latLongMarker = true ∧
    jsonMessage c6Plain = none ∧
    processErrorMessage c6Plain =
      .ok "\"No lat/long information available for station X\"" ∧
    ("\"No lat/long information available for station X\"" : String) ≠
      "Unknown reference station" :=
  ⟨rfl, rfl, rfl, by decide⟩

/-- C6 amended: when `process_error` decodes to a JSON object whose
`message` is a string starting with the marker, the normalized message is
the canonical label `"Unknown reference station"`. -/
theorem c6_json_marker_replaced (e m : String) (hj : jsonMessage e = some (.jstr m))
    (hp : strStartsWith m latLongMarker = true) :
    processErrorMessage e = .ok "Unknown reference station" := by
  unfold processErrorMessage getErrorMessage
  rw [hj]
  simp only [hp, if_true]
  rfl

/-- C6 amended witness on the station-X JSON error. -/
theorem c6_json_marker_replaced_witness :
    processErrorMessage c6Json = .ok "Unknown reference station" :=
  c6_json_marker_replaced c6Json "No lat/long information available for station X" rfl rfl

/-- C7: per group, `hakai_ids` is the member `hakai_id`s in input order
(the member list is a sublist of the input), cut to the first 4 with a
`"..."` sentinel exactly when the group has strictly more than 4 members;
4 members give the plain 4 ids, 5 members give 5 entries. -/
theorem c7_sample_ids (rs : List NormalizedRecord) :
    ∀ g ∈ groupsOf rs,
      (aggRow g.1 g.2).hakai_ids =
        (if 4 < g.2.length then (g.2.map fun r => r.hakai_id).take 4 ++ ["..."]
          else g.2.map fun r => r.hakai_id) ∧
      g.2.Sublist rs ∧
      (g.2.length = 4 → (aggRow g.1 g.2).hakai_ids = g.2.map fun r => r.hakai_id) ∧
      (g.2.length = 5 →
        (aggRow g.1 g.2).hakai_ids = (g.2.map fun r => r.hakai_id).take 4 ++ ["..."] ∧
        (aggRow g.1 g.2).hakai_ids.length = 5) := by
  intro g hg
  have hids : (aggRow g.1 g.2).hakai_ids = getSubset (g.2.map fun r => r.hakai_id) 4 := rfl
  refine ⟨?_, groupsOf_member_sublist hg, ?_, ?_⟩
  · rw [hids]
    unfold getSubset
    rw [List.length_map]
  · intro h4
    rw [hids]
    unfold getSubset
    rw [List.length_map, h4]
    simp
  · intro h5
    rw [hids]
    unfold getSubset
    rw [List.length_map, h5]
    refine ⟨by simp, ?_⟩
    simp [List.length_take, List.length_map, h5]

/-- C7 witness: five same-key records give the first four ids plus the
sentinel, a five-entry sample. -/
theorem c7_sample_ids_witness :
    (aggRow c7Group.1 c7Group.2).hakai_ids = ["H1", "H2", "H3", "H4", "..."] ∧
    (aggRow c7Group.1 c7Group.2).hakai_ids.length = 5 :=
  ⟨(((c7_sample_ids c7Recs c7Group (by decide)).2.2.2 (by decide)).1).trans (by decide),
   ((c7_sample_ids c7Recs c7Group (by decide)).2.2.2 (by decide)).2⟩

/-- C8: the claim says the short label strips exactly the three characters
left brace, double quote and right bracket after cutting at the first dot.
The pattern in the source is an unterminated character class, so
`re.compile` fails and the computation raises `re.error` for every
non-empty message instead — here at the claim's own example input. -/
theorem c8_short_label_regex_error :
    compileCharClassRegex shortLabelRegex = none ∧
    shortLabel "Error: sensor \x7bfault\x7d." = .error () :=
  ⟨rfl, rfl⟩

/-- C9: records of the `NATURE TRUST` organization get
`"[cruise={cruise}]"` appended to their work area (no other field
changes); records of any other organization are returned unchanged. -/
theorem c9_work_area_rewrite (r : NormalizedRecord) :
    (r.organization = "NATURE TRUST" →
      rewriteWorkArea r =
        { r with work_area := r.work_area ++ "[cruise=" ++ r.cruise ++ "]" }) ∧
    (r.organization ≠ "NATURE TRUST" → rewriteWorkArea r = r) := by
  constructor <;> intro h <;> simp [rewriteWorkArea, h]

/-- C9 witness on the spec's example records. -/
theorem c9_work_area_rewrite_witness :
    rewriteWorkArea c9NtRec = { c9NtRec with work_area := "Zone1[cruise=C99]" } ∧
    rewriteWorkArea c9HkRec = c9HkRec :=
  ⟨(((c9_work_area_rewrite c9NtRec).1 (by decide)).trans (by decide)),
   (c9_work_area_rewrite c9HkRec).2 (by decide)⟩

/-- C10: aggregation mutates the record collection handed to it: after
`get_summarized_errors` the caller's frame carries the rewritten
work areas (modelled by the returned post-state), and on a
`NATURE TRUST` batch that post-state differs from the input. -/
theorem c10_in_place_mutation :
    (∀ errors : List NormalizedRecord,
      (getSummarizedErrors errors).1 = errors.map rewriteWorkArea) ∧
    (getSummarizedErrors [c10Rec]).1 ≠ [c10Rec] :=
  ⟨fun _ => rfl, by decide⟩

end HakaiCtd
